import Mathlib

/-!
Verification development for the Newton rings terminal simulator
(src/newton_rings_simulation.py).

Modelling conventions.

* Python floats are modelled exactly: the instrument arithmetic
  (positions, velocities, step sizes, rounding of keys and step sizes)
  is carried out over the rationals, which makes every instrument
  definition computable and every concrete evaluation decidable.
  The optical formulas that need a square root (ring radii, the
  regression on ring diameters, the wavelength back-calculation) are
  carried out over the reals.
* The Python built-in round(x, d) rounds to the nearest multiple of
  10^(-d) with ties going to the even multiple; pyRound below is that
  function on exact rationals.
* Wall-clock time and the pseudo-random triangular noise sample are
  external inputs to the program; they appear as explicit parameters
  (a "now" timestamp for the move operations, a noise sample and a
  timestamp for take_measurement).
-/

namespace NewtonRings

/-- Round-half-to-even of a rational to an integer (the rounding used by
the Python built-in round). -/
def roundHalfEven (x : ℚ) : ℤ :=
  if x - ⌊x⌋ < 1/2 then ⌊x⌋
  else if 1/2 < x - ⌊x⌋ then ⌊x⌋ + 1
  else if 2 ∣ ⌊x⌋ then ⌊x⌋ else ⌊x⌋ + 1

/-- The Python round(x, d) function on exact rationals: round to the nearest
multiple of 10^(-d), ties to even. -/
def pyRound (d : ℕ) (x : ℚ) : ℚ :=
  (roundHalfEven (x * 10 ^ d) : ℚ) / 10 ^ d

/-- round(x, 3), used for step sizes (newton_rings_simulation.py
lines 177, 194, 218). -/
def round3 (x : ℚ) : ℚ := pyRound 3 x

/-- round(x, 9), used for the measurement key
(newton_rings_simulation.py line 303). -/
def round9 (x : ℚ) : ℚ := pyRound 9 x

/-- TravelingMicroscope.increase_step_size (lines 165-178): guarded by
step_size < 2.0, tiered ratios 1.25 / 1.2 / 1.15, then round to 3
decimals.  The guard tests the input, the result is not clamped. -/
def increase_step_size (s : ℚ) : ℚ :=
  if s < 2 then
    round3 (if s < 1/10 then s * (5/4)
            else if s < 1/2 then s * (6/5)
            else s * (23/20))
  else s

/-- TravelingMicroscope.decrease_step_size (lines 180-195): guarded by
step_size > 0.001, tiered ratios 0.8 / 0.85 / 0.9, a floor of 0.001 in
the lowest tier only, then round to 3 decimals. -/
def decrease_step_size (s : ℚ) : ℚ :=
  if s > 1/1000 then
    round3 (if s ≤ 1/10 then max (1/1000) (s * (4/5))
            else if s ≤ 1/2 then s * (17/20)
            else s * (9/10))
  else s

/-- A step-size command issued by the input layer. -/
inductive StepOp
  | inc
  | dec
deriving DecidableEq

/-- Apply one step-size command. -/
def applyStepOp : StepOp → ℚ → ℚ
  | StepOp.inc, s => increase_step_size s
  | StepOp.dec, s => decrease_step_size s

/-- Run a sequence of step-size commands from a starting step size. -/
def runStepOps (ops : List StepOp) (s : ℚ) : ℚ :=
  ops.foldl (fun a o => applyStepOp o a) s

/-- Direction of a recorded movement. -/
inductive Dir
  | left
  | right
deriving DecidableEq

/-- Measurement quality labels (source strings "Ultra-High", "Very High",
"High", "Good", "Standard"). -/
inductive Quality
  | ultraHigh
  | veryHigh
  | high
  | good
  | standard
deriving DecidableEq

/-- A measurement record as built by TravelingMicroscope.take_measurement
(lines 288-299).  distance_from_ring is an Option: none models the float
infinity left by an empty ring table.  The timestamp string is modelled
by an opaque rational parameter. -/
structure Reading where
  position : ℚ
  closest_ring : Option ℕ
  second_closest_ring : Option ℕ
  distance_from_ring : Option ℚ
  reading : ℚ
  precision : Quality
  velocity : ℚ
  noise_estimate : ℚ
  timestamp : ℚ
  alignment_quality : ℚ
deriving DecidableEq

/-- State of TravelingMicroscope (lines 57-71).  normal_step_size models
the _normal_step_size attribute, none while the attribute does not exist.
measurements is the dictionary keyed by the 9-decimal-rounded position,
kept in insertion order as a Python dict is. -/
structure Microscope where
  position : ℚ
  max_position : ℚ
  step_size : ℚ
  current_reading : Option Reading
  measurements : List (ℚ × Reading)
  movement_history : List (Dir × ℚ × ℚ)
  precision_mode : Bool
  sub_pixel_positions : List (ℚ × ℚ)
  last_update_time : ℚ
  velocity : ℚ
  movement_smoothness : ℚ
  normal_step_size : Option ℚ
deriving DecidableEq

/-- TravelingMicroscope.__init__ with max_position 30; the session start
time is taken as 0. -/
def initMicroscope : Microscope where
  position := 0
  max_position := 30
  step_size := 1/10
  current_reading := none
  measurements := []
  movement_history := []
  precision_mode := false
  sub_pixel_positions := []
  last_update_time := 0
  velocity := 0
  movement_smoothness := 4/5
  normal_step_size := none

/-- Append to a bounded history: push x, then drop the oldest entry when
the capacity is exceeded (the append followed by pop(0) in the source). -/
def capAppend {α : Type} (cap : ℕ) (l : List α) (x : α) : List α :=
  let l2 := l ++ [x]
  if l2.length > cap then l2.drop 1 else l2

/-- TravelingMicroscope.move_left (lines 73-117).  now is the wall-clock
reading time.time() taken at the start of the call.  Returns the moved
flag and the new state.  Note the boundary test of this function checks
only the left travel limit. -/
def move_left (s : Microscope) (factor now : ℚ) : Bool × Microscope :=
  if s.position > -s.max_position then
    let dt := min (1/10) (now - s.last_update_time)
    let step0 := s.step_size * factor
    let actual_step := if s.precision_mode then step0 / 10 else step0
    let target_velocity := -actual_step * 10
    let v1 := s.velocity * s.movement_smoothness + target_velocity * (1 - s.movement_smoothness)
    let candidate := s.position + v1 * dt
    let clamped := candidate < -s.max_position
    let new_position := if clamped then -s.max_position else candidate
    let v2 := if clamped then 0 else v1
    let actual_change := new_position - s.position
    (true, { s with
      position := new_position
      velocity := v2
      last_update_time := now
      sub_pixel_positions := capAppend 20 s.sub_pixel_positions (new_position, now)
      movement_history := capAppend 15 s.movement_history (Dir.left, |actual_change|, now) })
  else
    (false, { s with velocity := s.velocity * (1/2) })

/-- TravelingMicroscope.move_right (lines 119-163), mirror image of
move_left; the boundary test checks only the right travel limit. -/
def move_right (s : Microscope) (factor now : ℚ) : Bool × Microscope :=
  if s.position < s.max_position then
    let dt := min (1/10) (now - s.last_update_time)
    let step0 := s.step_size * factor
    let actual_step := if s.precision_mode then step0 / 10 else step0
    let target_velocity := actual_step * 10
    let v1 := s.velocity * s.movement_smoothness + target_velocity * (1 - s.movement_smoothness)
    let candidate := s.position + v1 * dt
    let clamped := candidate > s.max_position
    let new_position := if clamped then s.max_position else candidate
    let v2 := if clamped then 0 else v1
    let actual_change := new_position - s.position
    (true, { s with
      position := new_position
      velocity := v2
      last_update_time := now
      sub_pixel_positions := capAppend 20 s.sub_pixel_positions (new_position, now)
      movement_history := capAppend 15 s.movement_history (Dir.right, |actual_change|, now) })
  else
    (false, { s with velocity := s.velocity * (1/2) })

/-- TravelingMicroscope.toggle_precision_mode (lines 197-219). -/
def toggle_precision_mode (s : Microscope) : Microscope :=
  let pm := !s.precision_mode
  if pm then
    { s with
      precision_mode := pm
      normal_step_size := some s.step_size
      step_size := round3 (max (1/1000) (s.step_size / 10))
      velocity := 0
      movement_smoothness := 9/10 }
  else
    { s with
      precision_mode := pm
      step_size := round3 (s.normal_step_size.getD s.step_size)
      velocity := 0
      movement_smoothness := 4/5 }

/-- Accumulator of the closest-ring scan in take_measurement
(lines 224-238); none distances model the initial float infinity. -/
structure ScanAcc where
  closest : Option ℕ
  minDist : Option ℚ
  second : Option ℕ
  secondDist : Option ℚ
deriving DecidableEq

/-- Compare a distance against an optional current minimum, none meaning
infinity. -/
def ltOpt (d : ℚ) : Option ℚ → Bool
  | none => true
  | some m => decide (d < m)

/-- One iteration of the closest-ring scan loop (lines 229-238). -/
def scanStep (pos : ℚ) (acc : ScanAcc) (p : ℕ × ℚ) : ScanAcc :=
  let distance := |(|pos|) - p.2|
  if ltOpt distance acc.minDist then
    { closest := some p.1
      minDist := some distance
      second := acc.closest
      secondDist := acc.minDist }
  else if ltOpt distance acc.secondDist then
    { acc with second := some p.1, secondDist := some distance }
  else acc

/-- The closest-ring scan over the enumerated ring-radius table. -/
def scanRings (pos : ℚ) (radii : List ℚ) : ScanAcc :=
  radii.enum.foldl (scanStep pos) ⟨none, none, none, none⟩

/-- Noise scale from alignment (lines 250-257). -/
def noiseScale : Option ℚ → ℚ
  | none => 1
  | some d =>
    if d < 1/1000 then 1/100
    else if d < 1/100 then 1/10
    else if d < 1/10 then 1/5
    else 1

/-- Alignment quality before the 100-complement (line 242): min(1, d*100),
with the none (infinite) distance giving 1 exactly as the float infinity
does under min. -/
def alignmentQ : Option ℚ → ℚ
  | none => 1
  | some d => min 1 (d * 100)

/-- Instantaneous velocity from the last two recorded sub-pixel positions
(lines 267-273): 0 when fewer than two samples exist or the time
difference is not positive. -/
def measuredVelocity (l : List (ℚ × ℚ)) : ℚ :=
  match l.reverse with
  | b :: a :: _ => if a.2 < b.2 then (b.1 - a.1) / (b.2 - a.2) else 0
  | _ => 0

/-- Quality label from joint thresholds on distance and speed
(lines 276-285); the none (infinite) distance fails every threshold. -/
def qualityOf (minDist : Option ℚ) (v : ℚ) : Quality :=
  match minDist with
  | none => Quality.standard
  | some d =>
    if d < 1/1000 ∧ |v| < 1/1000 then Quality.ultraHigh
    else if d < 1/100 ∧ |v| < 1/100 then Quality.veryHigh
    else if d < 1/20 ∧ |v| < 1/20 then Quality.high
    else if d < 1/10 ∧ |v| < 1/10 then Quality.good
    else Quality.standard

/-- Python dict assignment on an insertion-ordered association list:
overwrite in place when the key exists, append otherwise. -/
def dictInsert {K V : Type} [DecidableEq K] (m : List (K × V)) (k : K) (v : V) :
    List (K × V) :=
  if m.any (fun p => decide (p.1 = k)) then
    m.map (fun p => if p.1 = k then (k, v) else p)
  else m ++ [(k, v)]

/-- State of NewtonRingsSimulation as far as the measurement core sees it
(lines 376-396): the owned microscope, the two per-ring measurement maps
and the physical parameters.  radius_of_curvature is stored in nm as in
the source.  The per-ring maps hold real positions because the regression
consumes exact ring radii containing square roots. -/
structure Sim where
  scope : Microscope
  left_measurements : List (ℕ × ℝ)
  right_measurements : List (ℕ × ℝ)
  wavelength : ℝ
  refractive_index : ℝ
  radius_of_curvature : ℝ

/-- TravelingMicroscope.take_measurement (lines 221-313) together with
the parent-simulation sync of lines 306-311.  radii is the ring-radius
table argument; noiseSample is the injected triangular sample from
random.triangular(-1, 1, 0); ts the formatted timestamp. -/
def take_measurement (sim : Sim) (radii : List ℚ) (noiseSample ts : ℚ) :
    Sim × Reading :=
  let s := sim.scope
  let acc := scanRings s.position radii
  let base_noise := if s.precision_mode then (1/100) * (1/10) else (1/100 : ℚ)
  let scale := noiseScale acc.minDist
  let noise := noiseSample * base_noise * scale
  let v := measuredVelocity s.sub_pixel_positions
  let reading : Reading :=
    { position := s.position
      closest_ring := acc.closest
      second_closest_ring := acc.second
      distance_from_ring := acc.minDist
      reading := s.position + noise
      precision := qualityOf acc.minDist v
      velocity := v
      noise_estimate := base_noise * scale
      timestamp := ts
      alignment_quality := 100 - alignmentQ acc.minDist }
  let position_key := round9 s.position
  let scope2 := { s with
    current_reading := some reading
    measurements := dictInsert s.measurements position_key reading }
  let sim2 := { sim with scope := scope2 }
  match acc.closest with
  | some r =>
    if 0 < r then
      if s.position < 0 then
        ({ sim2 with
            left_measurements := dictInsert sim2.left_measurements r ((s.position : ℝ)) },
         reading)
      else
        ({ sim2 with
            right_measurements := dictInsert sim2.right_measurements r ((s.position : ℝ)) },
         reading)
    else (sim2, reading)
  | none => (sim2, reading)

/-- Overwrite the microscope position; stands for whatever sequence of
move commands brought the instrument to the given position between two
measurements. -/
def setPosition (sim : Sim) (p : ℚ) : Sim :=
  { sim with scope := { sim.scope with position := p } }

/-- NewtonRingsSimulation.__init__ (lines 376-396): sodium wavelength
589.3 nm, air refractive index 1.0, radius of curvature 100 cm stored
as nm, empty measurement maps, fresh microscope. -/
noncomputable def initSimulation : Sim where
  scope := initMicroscope
  left_measurements := []
  right_measurements := []
  wavelength := 589.3
  refractive_index := 1
  radius_of_curvature := 100 * 10 ^ 7

/-- Constant MAX_RINGS (line 31). -/
def MAX_RINGS : ℕ := 15

/-- Radius in mm of the m-th ring as computed by
NewtonRingsSimulation.calculate_ring_radii (lines 398-415): 0 for the
central dark spot, sqrt(m * wavelength * R / mu) / 1e6 otherwise. -/
noncomputable def ringRadius (wavelength radius_of_curvature refractive_index : ℝ)
    (m : ℕ) : ℝ :=
  if m = 0 then 0
  else Real.sqrt (m * wavelength * radius_of_curvature / refractive_index) / 1000000

/-- The ring-radius table built by calculate_ring_radii: one entry per
ring order 0..MAX_RINGS. -/
noncomputable def calculate_ring_radii
    (wavelength radius_of_curvature refractive_index : ℝ) : List ℝ :=
  (List.range (MAX_RINGS + 1)).map (ringRadius wavelength radius_of_curvature refractive_index)

/-- The wavelength back-calculated from a ring radius by
display_microscope_view (lines 1190-1194):
(r^2 * mu) / (n * R / 1e7) multiplied by 1e6, R in nm. -/
noncomputable def display_wavelength (ring_number : ℕ)
    (ring_radius refractive_index radius_of_curvature : ℝ) : ℝ :=
  (ring_radius ^ 2 * refractive_index) / (ring_number * radius_of_curvature / 10 ^ 7)
    * 1000000

/-- Insert a ring number into a sorted list of ring numbers. -/
def insertSorted (n : ℕ) : List ℕ → List ℕ
  | [] => [n]
  | m :: rest => if n ≤ m then n :: m :: rest else m :: insertSorted n rest

/-- sorted() over the keys of a measurement map. -/
def sortKeys (l : List ℕ) : List ℕ := l.foldr insertSorted []

/-- Dictionary lookup on an association list of per-ring measurements. -/
def lookupMeas (m : List (ℕ × ℝ)) (r : ℕ) : Option ℝ :=
  (m.find? (fun p => decide (p.1 = r))).map Prod.snd

/-- The rings measured on both sides, in ascending order
(calculate_radius_from_measurements lines 683-687). -/
def validRings (left right : List (ℕ × ℝ)) : List ℕ :=
  (sortKeys (left.map Prod.fst)).filter (fun r => (lookupMeas right r).isSome)

/-- Squared diameter of one ring from its two measured sides
(lines 686-687). -/
noncomputable def diameterSq (left right : List (ℕ × ℝ)) (r : ℕ) : ℝ :=
  |((lookupMeas right r).getD 0) - ((lookupMeas left r).getD 0)| ^ 2

/-- NewtonRingsSimulation.calculate_radius_from_measurements
(lines 673-734): with fewer than two complete rings it reports the
precondition failure (none) and leaves the state untouched; otherwise it
returns the least-squares slope of diameter squared against ring number
divided by wavelength * 1e-7.  The function never assigns any attribute,
which the state component of the result records. -/
noncomputable def calculate_radius_from_measurements (sim : Sim) : Sim × Option ℝ :=
  let valid := validRings sim.left_measurements sim.right_measurements
  if valid.length < 2 then (sim, none)
  else
    let ds := valid.map (diameterSq sim.left_measurements sim.right_measurements)
    let n : ℝ := valid.length
    let sum_x : ℝ := (valid.map (fun r => (r : ℝ))).sum
    let sum_y : ℝ := ds.sum
    let sum_xy : ℝ := ((valid.zip ds).map (fun p => (p.1 : ℝ) * p.2)).sum
    let sum_x_squared : ℝ := (valid.map (fun r => ((r : ℝ)) ^ 2)).sum
    let slope := (n * sum_xy - sum_x * sum_y) / (n * sum_x_squared - sum_x ^ 2)
    (sim, some (slope / (sim.wavelength * 10 ^ (-7 : ℤ))))

/-- The simulation state holding exactly the noise-free synthetic
measurements of rings 5 and 10: left position minus the ring radius,
right position the ring radius, as produced by measure_left_side and
measure_right_side (lines 619-651) with zero noise, for the default
parameters (wavelength 589.3 nm, radius of curvature 100 cm). -/
noncomputable def syntheticSim : Sim :=
  { initSimulation with
    left_measurements :=
      [(5, -(ringRadius 589.3 (100 * 10 ^ 7) 1 5)),
       (10, -(ringRadius 589.3 (100 * 10 ^ 7) 1 10))]
    right_measurements :=
      [(5, ringRadius 589.3 (100 * 10 ^ 7) 1 5),
       (10, ringRadius 589.3 (100 * 10 ^ 7) 1 10)] }

/-- Positions of the measurements of one side of a ring that carry a
given quality label (the per-precision grouping of lines 1407-1425). -/
def tierPositions (l : List (ℚ × Quality)) (q : Quality) : List ℚ :=
  (l.filter (fun p => decide (p.2 = q))).map Prod.fst

/-- Python max over a nonempty list (0 as an arbitrary value on []). -/
def pyMax : List ℚ → ℚ
  | [] => 0
  | x :: xs => xs.foldl max x

/-- Python min over a nonempty list (0 as an arbitrary value on []). -/
def pyMin : List ℚ → ℚ
  | [] => 0
  | x :: xs => xs.foldl min x

/-- Whether both sides of a ring carry at least one measurement with the
given quality label (the dict-membership tests of lines 1428-1439). -/
def bothHaveTier (L R : List (ℚ × Quality)) (q : Quality) : Bool :=
  decide (tierPositions L q ≠ [] ∧ tierPositions R q ≠ [])

/-- The best-pair selection of display_microscope_measurements
(lines 1427-1444), for one ring with measurement lists L (left side) and
R (right side): try Ultra-High, Very High and High in that order,
requiring the tier on both sides; otherwise fall back to the rightmost
left-side and leftmost right-side positions among all measurements of
the ring, labelled Standard. -/
def select_best_pair (L R : List (ℚ × Quality)) : ℚ × ℚ × Quality :=
  if bothHaveTier L R Quality.ultraHigh then
    (pyMax (tierPositions L Quality.ultraHigh),
     pyMin (tierPositions R Quality.ultraHigh), Quality.ultraHigh)
  else if bothHaveTier L R Quality.veryHigh then
    (pyMax (tierPositions L Quality.veryHigh),
     pyMin (tierPositions R Quality.veryHigh), Quality.veryHigh)
  else if bothHaveTier L R Quality.high then
    (pyMax (tierPositions L Quality.high),
     pyMin (tierPositions R Quality.high), Quality.high)
  else
    (pyMax (L.map Prod.fst), pyMin (R.map Prod.fst), Quality.standard)

/-- The five quality labels in decreasing order. -/
def qualityOrder : List Quality :=
  [Quality.ultraHigh, Quality.veryHigh, Quality.high, Quality.good, Quality.standard]

/-- Modelled from the claim wording: select the highest of the five
quality tiers present on both sides and pick the rightmost left-side and
leftmost right-side positions within that tier (falling back to all
measurements when no tier is common). -/
def claimed_select_best_pair (L R : List (ℚ × Quality)) : ℚ × ℚ × Quality :=
  match qualityOrder.find? (bothHaveTier L R) with
  | some q => (pyMax (tierPositions L q), pyMin (tierPositions R q), q)
  | none => (pyMax (L.map Prod.fst), pyMin (R.map Prod.fst), Quality.standard)

/-- The three quality labels the source actually tries, in order. -/
def codeQualityOrder : List Quality :=
  [Quality.ultraHigh, Quality.veryHigh, Quality.high]

/-- The amended selection rule: like claimed_select_best_pair but with
only the Ultra-High, Very High and High tiers tried, and the fallback
taken over all measurements of the ring with the Standard label. -/
def amended_select_best_pair (L R : List (ℚ × Quality)) : ℚ × ℚ × Quality :=
  match codeQualityOrder.find? (bothHaveTier L R) with
  | some q => (pyMax (tierPositions L q), pyMin (tierPositions R q), q)
  | none => (pyMax (L.map Prod.fst), pyMin (R.map Prod.fst), Quality.standard)

end NewtonRings

namespace NewtonRings

theorem roundHalfEven_le {m : ℤ} {x : ℚ} (h : x ≤ m) : roundHalfEven x ≤ m := by
  have hfl : ⌊x⌋ ≤ m := by
    have h2 := Int.floor_le_floor h
    rwa [Int.floor_intCast] at h2
  have hup : ¬(x - ⌊x⌋ < 1/2) → ⌊x⌋ + 1 ≤ m := by
    intro h1
    have hx : (⌊x⌋ : ℚ) + 1/2 ≤ x := by
      have := le_of_not_lt h1
      linarith
    have hlt : (⌊x⌋ : ℚ) < m := by linarith
    have hlt' : ⌊x⌋ < m := by exact_mod_cast hlt
    omega
  unfold roundHalfEven
  split_ifs with h1 h2 h3
  · exact hfl
  · exact hup h1
  · exact hfl
  · exact hup h1

theorem le_roundHalfEven {m : ℤ} {x : ℚ} (h : (m : ℚ) ≤ x) : m ≤ roundHalfEven x := by
  have hfl : m ≤ ⌊x⌋ := Int.le_floor.mpr h
  unfold roundHalfEven
  split_ifs with h1 h2 h3
  · exact hfl
  · omega
  · exact hfl
  · omega

theorem pyRound_le {d : ℕ} {m : ℤ} {x : ℚ} (h : x ≤ (m : ℚ) / 10 ^ d) :
    pyRound d x ≤ (m : ℚ) / 10 ^ d := by
  unfold pyRound
  have hpow : (0:ℚ) < 10 ^ d := by positivity
  have hx : x * 10 ^ d ≤ (m : ℚ) := by
    have := mul_le_mul_of_nonneg_right h (le_of_lt hpow)
    calc x * 10 ^ d ≤ (m : ℚ) / 10 ^ d * 10 ^ d := this
      _ = (m : ℚ) := by field_simp
  have := roundHalfEven_le hx
  have hc : ((roundHalfEven (x * 10 ^ d) : ℚ)) ≤ (m : ℚ) := by exact_mod_cast this
  exact div_le_div_of_nonneg_right hc hpow.le

theorem le_pyRound {d : ℕ} {m : ℤ} {x : ℚ} (h : (m : ℚ) / 10 ^ d ≤ x) :
    (m : ℚ) / 10 ^ d ≤ pyRound d x := by
  unfold pyRound
  have hpow : (0:ℚ) < 10 ^ d := by positivity
  have hx : (m : ℚ) ≤ x * 10 ^ d := by
    have := mul_le_mul_of_nonneg_right h (le_of_lt hpow)
    calc (m : ℚ) = (m : ℚ) / 10 ^ d * 10 ^ d := by field_simp
      _ ≤ x * 10 ^ d := this
  have := le_roundHalfEven hx
  have hc : (m : ℚ) ≤ ((roundHalfEven (x * 10 ^ d) : ℚ)) := by exact_mod_cast this
  exact div_le_div_of_nonneg_right hc hpow.le

theorem pyRound_intCast_div (d : ℕ) (m : ℤ) :
    pyRound d ((m : ℚ) / 10 ^ d) = (m : ℚ) / 10 ^ d :=
  le_antisymm (pyRound_le le_rfl) (le_pyRound le_rfl)

theorem pyRound_exists_int (d : ℕ) (x : ℚ) :
    ∃ m : ℤ, pyRound d x = (m : ℚ) / 10 ^ d :=
  ⟨roundHalfEven (x * 10 ^ d), rfl⟩

theorem pyRound_idem (d : ℕ) (x : ℚ) : pyRound d (pyRound d x) = pyRound d x := by
  obtain ⟨m, hm⟩ := pyRound_exists_int d x
  rw [hm, pyRound_intCast_div]

theorem roundHalfEven_lo {x : ℚ} {n : ℤ} (h1 : (n:ℚ) ≤ x) (h2 : x < (n:ℚ) + 1/2) :
    roundHalfEven x = n := by
  have hfl : ⌊x⌋ = n := Int.floor_eq_iff.mpr ⟨h1, by linarith⟩
  unfold roundHalfEven
  rw [hfl, if_pos (by linarith)]

theorem roundHalfEven_intCast (n : ℤ) : roundHalfEven (n:ℚ) = n :=
  roundHalfEven_lo le_rfl (by linarith)

theorem roundHalfEven_hi {x : ℚ} {n : ℤ} (h1 : (n:ℚ) + 1/2 < x) (h2 : x < (n:ℚ) + 1) :
    roundHalfEven x = n + 1 := by
  have hfl : ⌊x⌋ = n := Int.floor_eq_iff.mpr ⟨by linarith, by linarith⟩
  unfold roundHalfEven
  rw [hfl, if_neg (by linarith), if_pos (by linarith)]

theorem roundHalfEven_half_odd {x : ℚ} {n : ℤ} (hx : x = (n:ℚ) + 1/2)
    (h2 : ¬ 2 ∣ n) : roundHalfEven x = n + 1 := by
  have hfl : ⌊x⌋ = n := Int.floor_eq_iff.mpr ⟨by linarith, by linarith⟩
  unfold roundHalfEven
  rw [hfl, if_neg (by rw [hx]; linarith), if_neg (by rw [hx]; linarith),
    if_neg h2]

theorem round3_thousandth (m : ℤ) : round3 ((m:ℚ)/1000) = (m:ℚ)/1000 := by
  have h10 : ((10:ℚ) ^ (3:ℕ)) = 1000 := by norm_num
  unfold round3
  rw [← h10]
  exact pyRound_intCast_div 3 m

theorem round3_le {x : ℚ} {m : ℤ} (h : x ≤ (m : ℚ) / 1000) :
    round3 x ≤ (m : ℚ) / 1000 := by
  have h10 : ((10:ℚ) ^ (3:ℕ)) = 1000 := by norm_num
  unfold round3
  have hx : x ≤ (m : ℚ) / 10 ^ 3 := by rw [h10]; exact h
  have := pyRound_le hx
  rwa [h10] at this

theorem le_round3 {x : ℚ} {m : ℤ} (h : (m : ℚ) / 1000 ≤ x) :
    (m : ℚ) / 1000 ≤ round3 x := by
  have h10 : ((10:ℚ) ^ (3:ℕ)) = 1000 := by norm_num
  unfold round3
  have hx : (m : ℚ) / 10 ^ 3 ≤ x := by rw [h10]; exact h
  have := le_pyRound hx
  rwa [h10] at this

theorem round3_form (x : ℚ) : ∃ m : ℤ, round3 x = (m : ℚ) / 1000 := by
  obtain ⟨m, hm⟩ := pyRound_exists_int 3 x
  refine ⟨m, ?_⟩
  rw [round3, hm]
  norm_num

theorem round3_idem (x : ℚ) : round3 (round3 x) = round3 x := by
  unfold round3
  exact pyRound_idem 3 x

theorem round3_mem_bounds {y : ℚ} (hy1 : 1/1000 ≤ y) (hy2 : y ≤ 2299/1000) :
    1/1000 ≤ round3 y ∧ round3 y ≤ 2299/1000 ∧ round3 (round3 y) = round3 y := by
  refine ⟨?_, ?_, round3_idem y⟩
  · have := le_round3 (m := 1) (x := y) (by push_cast; linarith)
    simpa using this
  · have := round3_le (m := 2299) (x := y) (by push_cast; linarith)
    simpa using this

theorem applyStepOp_invariant (o : StepOp) {s : ℚ}
    (h1 : 1/1000 ≤ s) (h2 : s ≤ 2299/1000) (h3 : round3 s = s) :
    1/1000 ≤ applyStepOp o s ∧ applyStepOp o s ≤ 2299/1000 ∧
      round3 (applyStepOp o s) = applyStepOp o s := by
  cases o with
  | inc =>
    show 1/1000 ≤ increase_step_size s ∧ increase_step_size s ≤ 2299/1000 ∧
      round3 (increase_step_size s) = increase_step_size s
    unfold increase_step_size
    by_cases hlt : s < 2
    · obtain ⟨m, hm⟩ := round3_form s
      have hsm : s = (m:ℚ)/1000 := by rw [← h3, hm]
      have hmlt : (m:ℚ) < 2000 := by
        rw [hsm] at hlt
        linarith
      have hmle : m ≤ 1999 := by
        have : m < 2000 := by exact_mod_cast hmlt
        omega
      have hs1999 : s ≤ 1999/1000 := by
        rw [hsm]
        have : (m:ℚ) ≤ 1999 := by exact_mod_cast hmle
        linarith
      rw [if_pos hlt]
      by_cases ha : s < 1/10
      · rw [if_pos ha]
        exact round3_mem_bounds (by linarith) (by linarith)
      · rw [if_neg ha]
        by_cases hb : s < 1/2
        · rw [if_pos hb]
          exact round3_mem_bounds (by linarith) (by linarith)
        · rw [if_neg hb]
          exact round3_mem_bounds (by linarith) (by linarith)
    · rw [if_neg hlt]
      exact ⟨h1, h2, h3⟩
  | dec =>
    show 1/1000 ≤ decrease_step_size s ∧ decrease_step_size s ≤ 2299/1000 ∧
      round3 (decrease_step_size s) = decrease_step_size s
    unfold decrease_step_size
    by_cases hgt : s > 1/1000
    · rw [if_pos hgt]
      by_cases ha : s ≤ 1/10
      · rw [if_pos ha]
        exact round3_mem_bounds (le_max_left _ _)
          (max_le (by norm_num) (by linarith))
      · rw [if_neg ha]
        by_cases hb : s ≤ 1/2
        · rw [if_pos hb]
          exact round3_mem_bounds (by linarith) (by linarith)
        · rw [if_neg hb]
          exact round3_mem_bounds (by linarith) (by linarith)
    · rw [if_neg hgt]
      exact ⟨h1, h2, h3⟩

theorem runStepOps_invariant (ops : List StepOp) {s : ℚ}
    (h1 : 1/1000 ≤ s) (h2 : s ≤ 2299/1000) (h3 : round3 s = s) :
    1/1000 ≤ runStepOps ops s ∧ runStepOps ops s ≤ 2299/1000 ∧
      round3 (runStepOps ops s) = runStepOps ops s := by
  induction ops generalizing s with
  | nil => exact ⟨h1, h2, h3⟩
  | cons o rest ih =>
    obtain ⟨g1, g2, g3⟩ := applyStepOp_invariant o h1 h2 h3
    simpa [runStepOps] using ih g1 g2 g3

/-- C5 (amended): for every starting step size in [0.001, 2.0] that equals
its own 3-decimal rounding, any sequence of increase_step_size and
decrease_step_size calls keeps the step size within [0.001, 2.299] and
keeps it equal to its own 3-decimal rounding.  (The upper bound 2.0 of the
claim does not hold: the guard of increase_step_size tests the input and
the rounded product is not clamped, so one increase from 1.9 yields
2.185.) -/
theorem step_size_invariant (s0 : ℚ) (h1 : 1/1000 ≤ s0) (h2 : s0 ≤ 2)
    (h3 : round3 s0 = s0) (ops : List StepOp) :
    1/1000 ≤ runStepOps ops s0 ∧ runStepOps ops s0 ≤ 2299/1000 ∧
      round3 (runStepOps ops s0) = runStepOps ops s0 :=
  runStepOps_invariant ops h1 (by linarith) h3

/-- C5 witness: the amended invariant evaluated from the default step size
0.1 under one increase followed by one decrease. -/
theorem step_size_invariant_witness :
    1/1000 ≤ runStepOps [StepOp.inc, StepOp.dec] (1/10) ∧
    runStepOps [StepOp.inc, StepOp.dec] (1/10) ≤ 2299/1000 ∧
    round3 (runStepOps [StepOp.inc, StepOp.dec] (1/10)) =
      runStepOps [StepOp.inc, StepOp.dec] (1/10) :=
  step_size_invariant (1/10) (by norm_num) (by norm_num)
    (by have := round3_thousandth 100; push_cast at this; norm_num at this ⊢; exact this)
    [StepOp.inc, StepOp.dec]

/-- C5 counterexample: starting from the legal step size 1.9, one
increase_step_size call produces 2.185, outside [0.001, 2.0]; and a
starting step size such as 0.0015 is not equal to its own 3-decimal
rounding even though it lies in [0.001, 2.0]. -/
theorem step_size_invariant_counterexample :
    (1/1000 ≤ (19/10 : ℚ) ∧ (19/10 : ℚ) ≤ 2 ∧
      increase_step_size (19/10) = 437/200 ∧ ¬(increase_step_size (19/10) ≤ 2)) ∧
    (runStepOps [] (3/2000) = 3/2000 ∧ ¬(round3 (3/2000) = 3/2000)) := by
  have hinc : increase_step_size (19/10) = 437/200 := by
    unfold increase_step_size
    rw [if_pos (by norm_num), if_neg (by norm_num), if_neg (by norm_num)]
    have harg : (19/10 : ℚ) * (23/20) = ((2185:ℤ):ℚ)/1000 := by norm_num
    rw [harg, round3_thousandth]
    norm_num
  have hround : round3 (3/2000) = 1/500 := by
    unfold round3 pyRound
    have harg : (3/2000 : ℚ) * 10 ^ 3 = ((1:ℤ):ℚ) + 1/2 := by norm_num
    rw [harg, roundHalfEven_half_odd rfl (by omega)]
    norm_num
  refine ⟨⟨by norm_num, by norm_num, hinc, by rw [hinc]; norm_num⟩, ?_, ?_⟩
  · simp [runStepOps]
  · rw [hround]
    norm_num

/-- C6 (amended): from every microscope state with precision mode off
whose step size equals its own 3-decimal rounding, toggling precision
mode twice restores the exact pre-toggle step size, and afterwards the
velocity is 0, movement smoothing is back to 0.8 and precision mode is
off again. -/
theorem toggle_twice_restores (s : Microscope) (hpm : s.precision_mode = false)
    (hstep : round3 s.step_size = s.step_size) :
    (toggle_precision_mode (toggle_precision_mode s)).step_size = s.step_size ∧
    (toggle_precision_mode (toggle_precision_mode s)).velocity = 0 ∧
    (toggle_precision_mode (toggle_precision_mode s)).movement_smoothness = 4/5 ∧
    (toggle_precision_mode (toggle_precision_mode s)).precision_mode = false := by
  unfold toggle_precision_mode
  simp [hpm, hstep]

/-- C6 witness: the double toggle evaluated on the freshly constructed
microscope, whose step size 0.1 is 3-decimal stable. -/
theorem toggle_twice_restores_witness :
    (toggle_precision_mode (toggle_precision_mode initMicroscope)).step_size =
      initMicroscope.step_size ∧
    (toggle_precision_mode (toggle_precision_mode initMicroscope)).velocity = 0 ∧
    (toggle_precision_mode (toggle_precision_mode initMicroscope)).movement_smoothness = 4/5 ∧
    (toggle_precision_mode (toggle_precision_mode initMicroscope)).precision_mode = false :=
  toggle_twice_restores initMicroscope rfl
    (by have := round3_thousandth 100; push_cast at this; norm_num at this ⊢; exact this)

/-- C6 counterexample: a state with precision mode off and step size
0.0015 is not restored by a double toggle; the exit path rounds the
remembered step size to 3 decimals and returns 0.002. -/
theorem toggle_twice_restores_counterexample :
    ({ initMicroscope with step_size := 3/2000 } : Microscope).precision_mode = false ∧
    (toggle_precision_mode (toggle_precision_mode
      ({ initMicroscope with step_size := 3/2000 }))).step_size = 1/500 ∧
    (1/500 : ℚ) ≠ 3/2000 := by
  have hround : round3 (3/2000) = 1/500 := by
    unfold round3 pyRound
    have harg : (3/2000 : ℚ) * 10 ^ 3 = ((1:ℤ):ℚ) + 1/2 := by norm_num
    rw [harg, roundHalfEven_half_odd rfl (by omega)]
    norm_num
  refine ⟨rfl, ?_, by norm_num⟩
  unfold toggle_precision_mode
  simp [initMicroscope, hround]

/-- C1: a two-call sequence with factors 1000 and 0 and elapsed deltas of
0.1 s each — all within the quantification of the claim — drives the
position from 0 to 36 mm, outside [-30, 30]: move_left integrates the
leftover positive velocity but clamps only at the left travel limit, so
the right bound is crossed without clamping. -/
theorem move_bounds_violation :
    ((move_left (move_right initMicroscope 1000 (1/10)).2 0 (1/5)).2).position = 36 ∧
    ¬(|((move_left (move_right initMicroscope 1000 (1/10)).2 0 (1/5)).2).position| ≤
        initMicroscope.max_position) := by
  have h1 : (move_right initMicroscope 1000 (1/10)).2.position = 20 ∧
      (move_right initMicroscope 1000 (1/10)).2.velocity = 200 ∧
      (move_right initMicroscope 1000 (1/10)).2.max_position = 30 ∧
      (move_right initMicroscope 1000 (1/10)).2.step_size = 1/10 ∧
      (move_right initMicroscope 1000 (1/10)).2.precision_mode = false ∧
      (move_right initMicroscope 1000 (1/10)).2.movement_smoothness = 4/5 ∧
      (move_right initMicroscope 1000 (1/10)).2.last_update_time = 1/10 := by
    unfold move_right
    rw [if_pos (by norm_num [initMicroscope])]
    norm_num [initMicroscope]
  obtain ⟨hp, hv, hmax, hstep, hpm, hsm, hlast⟩ := h1
  have h2 : ((move_left (move_right initMicroscope 1000 (1/10)).2 0 (1/5)).2).position = 36 := by
    unfold move_left
    rw [if_pos (by rw [hp, hmax]; norm_num)]
    simp only [hp, hv, hmax, hstep, hpm, hsm, hlast]
    norm_num
  refine ⟨h2, ?_⟩
  rw [h2]
  norm_num [initMicroscope]

/-- C7 counterexample: for a ring whose best common tier is Good (left
side holding a Good and a Standard measurement, right side one Good
measurement), the claimed rule picks the Good-tier pair (-5, 5) while
the source skips the Good tier and falls back to the rightmost left
position among all measurements, returning (-4, 5, Standard). -/
theorem select_best_pair_counterexample :
    select_best_pair [(-5, Quality.good), (-4, Quality.standard)] [(5, Quality.good)] ≠
      claimed_select_best_pair [(-5, Quality.good), (-4, Quality.standard)]
        [(5, Quality.good)] := by
  decide

/-- C7 (amended): the best-pair selection tries only the Ultra-High,
Very High and High tiers in that order, requiring the tier on both
sides, and picks the rightmost left-side and leftmost right-side
position within the first such tier; when none of those three tiers is
present on both sides it falls back to the rightmost left-side and
leftmost right-side position among all of the ring measurements,
labelling the pair Standard.  The Good tier is never selected. -/
theorem select_best_pair_amended (L R : List (ℚ × Quality)) :
    select_best_pair L R = amended_select_best_pair L R := by
  unfold select_best_pair amended_select_best_pair codeQualityOrder
  cases h1 : bothHaveTier L R Quality.ultraHigh <;>
    cases h2 : bothHaveTier L R Quality.veryHigh <;>
      cases h3 : bothHaveTier L R Quality.high <;>
        simp [List.find?, h1, h2, h3]

theorem tm_scope_measurements (sim : Sim) (radii : List ℚ) (n t : ℚ) :
    ∃ r : Reading, ((take_measurement sim radii n t).1).scope.measurements =
      dictInsert sim.scope.measurements (round9 sim.scope.position) r := by
  simp only [take_measurement]
  split
  · split_ifs <;> exact ⟨_, rfl⟩
  · exact ⟨_, rfl⟩

theorem setPosition_scope_position (sim : Sim) (p : ℚ) :
    (setPosition sim p).scope.position = p := rfl

theorem setPosition_scope_measurements (sim : Sim) (p : ℚ) :
    (setPosition sim p).scope.measurements = sim.scope.measurements := rfl

theorem round9_int (k : ℤ) : round9 ((k:ℚ)/10^9) = (k:ℚ)/10^9 := by
  unfold round9
  exact pyRound_intCast_div 9 k

theorem round9_int_add_tenth (k : ℤ) :
    round9 ((k:ℚ)/10^9 + 1/10^10) = (k:ℚ)/10^9 := by
  unfold round9 pyRound
  have harg : ((k:ℚ)/10^9 + 1/10^10) * 10 ^ 9 = (k:ℚ) + 1/10 := by
    field_simp
    ring
  rw [harg, roundHalfEven_lo (n := k) (by linarith) (by linarith)]

/-- C8 (amended): two take_measurement calls at positions 1e-10 mm apart
collide into one stored record whenever the two positions share their
9-decimal rounding; in particular this always holds when the first
position is an exact multiple of 1e-9 mm.  (Without that proviso the
claim fails: positions straddling a rounding boundary get distinct keys,
see the counterexample.) -/
theorem measurement_key_collision (sim : Sim) (k : ℤ) (radii : List ℚ)
    (n1 t1 n2 t2 : ℚ) (hm : sim.scope.measurements = [])
    (hp : sim.scope.position = (k : ℚ) / 10 ^ 9) :
    ((take_measurement (setPosition (take_measurement sim radii n1 t1).1
        ((k : ℚ) / 10 ^ 9 + 1 / 10 ^ 10)) radii n2 t2).1).scope.measurements.length
      = 1 := by
  obtain ⟨r1, h1⟩ := tm_scope_measurements sim radii n1 t1
  rw [hm, hp, round9_int] at h1
  have h1b : ((take_measurement sim radii n1 t1).1).scope.measurements =
      [((k:ℚ)/10^9, r1)] := by
    rw [h1]
    simp [dictInsert]
  obtain ⟨r2, h2⟩ := tm_scope_measurements
    (setPosition (take_measurement sim radii n1 t1).1 ((k : ℚ) / 10 ^ 9 + 1 / 10 ^ 10))
    radii n2 t2
  rw [setPosition_scope_position, setPosition_scope_measurements, h1b,
    round9_int_add_tenth] at h2
  rw [h2]
  simp [dictInsert]

/-- C8 witness: the collision evaluated from the fresh simulation at
position 0 (an exact multiple of 1e-9). -/
theorem measurement_key_collision_witness :
    ((take_measurement (setPosition (take_measurement initSimulation [] 0 0).1
        ((0 : ℚ) / 10 ^ 9 + 1 / 10 ^ 10)) [] 0 0).1).scope.measurements.length = 1 :=
  measurement_key_collision initSimulation 0 [] 0 0 0 0 rfl
    (by norm_num [initSimulation, initMicroscope])

/-- C8 counterexample: the positions 0.45e-9 mm and 0.55e-9 mm differ by
exactly 1e-10 mm yet round to the distinct 9-decimal keys 0 and 1e-9, so
the two measurements are stored as two records, not one. -/
theorem measurement_key_collision_counterexample :
    ((11 / (2 * 10 ^ 10) : ℚ) - 9 / (2 * 10 ^ 10) = 1 / 10 ^ 10) ∧
    ((take_measurement (setPosition (take_measurement
        (setPosition initSimulation (9 / (2 * 10 ^ 10))) [] 0 0).1
        (11 / (2 * 10 ^ 10))) [] 0 0).1).scope.measurements.length = 2 := by
  have hk1 : round9 (9 / (2 * 10 ^ 10)) = 0 := by
    unfold round9 pyRound
    have harg : (9 / (2 * 10 ^ 10) : ℚ) * 10 ^ 9 = 9/20 := by norm_num
    rw [harg, roundHalfEven_lo (n := 0) (by norm_num) (by norm_num)]
    norm_num
  have hk2 : round9 (11 / (2 * 10 ^ 10)) = 1/10^9 := by
    unfold round9 pyRound
    have harg : (11 / (2 * 10 ^ 10) : ℚ) * 10 ^ 9 = 11/20 := by norm_num
    rw [harg, roundHalfEven_hi (n := 0) (by norm_num) (by norm_num)]
    norm_num
  refine ⟨by norm_num, ?_⟩
  obtain ⟨r1, h1⟩ := tm_scope_measurements
    (setPosition initSimulation (9 / (2 * 10 ^ 10))) [] 0 0
  have hIS : initSimulation.scope.measurements = [] := rfl
  rw [setPosition_scope_position, setPosition_scope_measurements, hIS, hk1] at h1
  have h1b : ((take_measurement
      (setPosition initSimulation (9 / (2 * 10 ^ 10))) [] 0 0).1).scope.measurements =
      [((0:ℚ), r1)] := by
    rw [h1]
    simp [dictInsert]
  obtain ⟨r2, h2⟩ := tm_scope_measurements
    (setPosition (take_measurement
      (setPosition initSimulation (9 / (2 * 10 ^ 10))) [] 0 0).1
      (11 / (2 * 10 ^ 10))) [] 0 0
  rw [setPosition_scope_position, setPosition_scope_measurements, h1b, hk2] at h2
  rw [h2]
  norm_num [dictInsert]

/-- C9: with fewer than two ring numbers measured on both sides, the
radius-of-curvature calculation reports the insufficiency (none) and
returns with the simulation state unchanged; no exception is modelled
because the source only prints and returns. -/
theorem calculate_radius_insufficient (sim : Sim)
    (h : (validRings sim.left_measurements sim.right_measurements).length < 2) :
    calculate_radius_from_measurements sim = (sim, none) := by
  simp only [calculate_radius_from_measurements]
  rw [if_pos h]

/-- C9 witness: the insufficiency path evaluated on the fresh simulation,
whose measurement maps are empty. -/
theorem calculate_radius_insufficient_witness :
    calculate_radius_from_measurements initSimulation = (initSimulation, none) :=
  calculate_radius_insufficient initSimulation
    (by simp [validRings, sortKeys, initSimulation])

/-- C10: take_measurement writes only the measurements dictionary, the
current reading and (through the parent back-reference) the per-ring
session maps; it leaves position, velocity, step_size, precision_mode,
movement_smoothness, last_update_time, movement_history,
sub_pixel_positions — and also max_position, the remembered normal step
size and the physical parameters — unchanged. -/
theorem take_measurement_frame (sim : Sim) (radii : List ℚ) (n t : ℚ) :
    ((take_measurement sim radii n t).1).scope.position = sim.scope.position ∧
    ((take_measurement sim radii n t).1).scope.velocity = sim.scope.velocity ∧
    ((take_measurement sim radii n t).1).scope.step_size = sim.scope.step_size ∧
    ((take_measurement sim radii n t).1).scope.precision_mode = sim.scope.precision_mode ∧
    ((take_measurement sim radii n t).1).scope.movement_smoothness =
      sim.scope.movement_smoothness ∧
    ((take_measurement sim radii n t).1).scope.last_update_time =
      sim.scope.last_update_time ∧
    ((take_measurement sim radii n t).1).scope.movement_history =
      sim.scope.movement_history ∧
    ((take_measurement sim radii n t).1).scope.sub_pixel_positions =
      sim.scope.sub_pixel_positions ∧
    ((take_measurement sim radii n t).1).scope.max_position = sim.scope.max_position ∧
    ((take_measurement sim radii n t).1).scope.normal_step_size =
      sim.scope.normal_step_size ∧
    ((take_measurement sim radii n t).1).wavelength = sim.wavelength ∧
    ((take_measurement sim radii n t).1).refractive_index = sim.refractive_index ∧
    ((take_measurement sim radii n t).1).radius_of_curvature =
      sim.radius_of_curvature := by
  simp only [take_measurement]
  split
  · split_ifs <;>
      exact ⟨rfl, rfl, rfl, rfl, rfl, rfl, rfl, rfl, rfl, rfl, rfl, rfl, rfl⟩
  · exact ⟨rfl, rfl, rfl, rfl, rfl, rfl, rfl, rfl, rfl, rfl, rfl, rfl, rfl⟩

theorem ringRadius_nonneg (wl R mu : ℝ) (m : ℕ) : 0 ≤ ringRadius wl R mu m := by
  unfold ringRadius
  split
  · exact le_rfl
  · positivity

theorem ringRadius_sq {wl R mu : ℝ} {m : ℕ} (hm : m ≠ 0)
    (h : 0 ≤ (m:ℝ) * wl * R / mu) :
    ringRadius wl R mu m ^ 2 = ((m:ℝ) * wl * R / mu) / 10 ^ 12 := by
  unfold ringRadius
  rw [if_neg hm, div_pow, Real.sq_sqrt h]
  norm_num

theorem ringRadius_strictMono (wl R mu : ℝ) (hwl : 0 < wl) (hR : 0 < R)
    (hmu : 0 < mu) {m n : ℕ} (hmn : m < n) :
    ringRadius wl R mu m < ringRadius wl R mu n := by
  have hn0 : n ≠ 0 := by omega
  have hnpos : (0:ℝ) < n := by
    have := Nat.pos_of_ne_zero hn0
    exact_mod_cast this
  have hargn : 0 < (n:ℝ) * wl * R / mu := by positivity
  unfold ringRadius
  rw [if_neg hn0]
  by_cases hm0 : m = 0
  · rw [if_pos hm0]
    exact div_pos (Real.sqrt_pos.mpr hargn) (by norm_num)
  · rw [if_neg hm0]
    have hc : (m:ℝ) < n := by exact_mod_cast hmn
    have harg : (m:ℝ) * wl * R / mu < (n:ℝ) * wl * R / mu := by gcongr
    have hs := Real.sqrt_lt_sqrt (by positivity) harg
    exact div_lt_div_of_pos_right hs (by norm_num)

/-- C4: calculate_ring_radii produces MAX_RINGS + 1 entries; entry 0 is
exactly 0; entry m is sqrt(m * wavelength * R / mu) / 1e6 in mm; and for
every positive wavelength, radius of curvature and refractive index all
entries are nonnegative and the table is strictly increasing in the ring
order. -/
theorem calculate_ring_radii_spec (wl R mu : ℝ) (hwl : 0 < wl) (hR : 0 < R)
    (hmu : 0 < mu) :
    (calculate_ring_radii wl R mu).length = MAX_RINGS + 1 ∧
    ringRadius wl R mu 0 = 0 ∧
    (∀ m : ℕ, m < MAX_RINGS + 1 →
      (calculate_ring_radii wl R mu)[m]? = some (ringRadius wl R mu m)) ∧
    (∀ m : ℕ, m ≠ 0 →
      ringRadius wl R mu m = Real.sqrt ((m:ℝ) * wl * R / mu) / 1000000) ∧
    (∀ m : ℕ, 0 ≤ ringRadius wl R mu m) ∧
    (∀ m n : ℕ, m < n → ringRadius wl R mu m < ringRadius wl R mu n) := by
  refine ⟨?_, ?_, ?_, ?_, ?_, ?_⟩
  · simp [calculate_ring_radii]
  · simp [ringRadius]
  · intro m hm
    simp [calculate_ring_radii, List.getElem?_map, List.getElem?_range, hm]
  · intro m hm
    simp [ringRadius, hm]
  · intro m
    exact ringRadius_nonneg wl R mu m
  · intro m n hmn
    exact ringRadius_strictMono wl R mu hwl hR hmu hmn

/-- C4 witness: the table properties evaluated at the default parameters
(wavelength 589.3 nm, radius of curvature 1e9 nm, refractive index 1). -/
theorem calculate_ring_radii_spec_witness :
    (calculate_ring_radii 589.3 (100 * 10 ^ 7) 1).length = MAX_RINGS + 1 ∧
    ringRadius 589.3 (100 * 10 ^ 7) 1 0 = 0 ∧
    (∀ m : ℕ, m < MAX_RINGS + 1 →
      (calculate_ring_radii 589.3 (100 * 10 ^ 7) 1)[m]? =
        some (ringRadius 589.3 (100 * 10 ^ 7) 1 m)) ∧
    (∀ m : ℕ, m ≠ 0 →
      ringRadius 589.3 (100 * 10 ^ 7) 1 m =
        Real.sqrt ((m:ℝ) * 589.3 * (100 * 10 ^ 7) / 1) / 1000000) ∧
    (∀ m : ℕ, 0 ≤ ringRadius 589.3 (100 * 10 ^ 7) 1 m) ∧
    (∀ m n : ℕ, m < n →
      ringRadius 589.3 (100 * 10 ^ 7) 1 m < ringRadius 589.3 (100 * 10 ^ 7) 1 n) :=
  calculate_ring_radii_spec 589.3 (100 * 10 ^ 7) 1 (by norm_num) (by norm_num)
    (by norm_num)

/-- C3: the round trip fails by a factor of 10.  For ring 1 at the
default parameters, feeding the radius computed by calculate_ring_radii
into the wavelength back-calculation of display_microscope_view returns
5893 nm, ten times the true 589.3 nm: the source multiplies the ratio
(mm^2 / cm) by 1e6 where the unit-correct factor is 1e5. -/
theorem display_wavelength_roundtrip_bug :
    display_wavelength 1 (ringRadius 589.3 (100 * 10 ^ 7) 1 1) 1 (100 * 10 ^ 7)
      = 5893 ∧
    (5893 : ℝ) = 10 * 589.3 ∧ (5893 : ℝ) ≠ 589.3 := by
  refine ⟨?_, by norm_num, by norm_num⟩
  have hsq : ringRadius 589.3 (100 * 10 ^ 7) 1 1 ^ 2 =
      (((1:ℕ):ℝ) * 589.3 * (100 * 10 ^ 7) / 1) / 10 ^ 12 :=
    ringRadius_sq (by norm_num) (by positivity)
  unfold display_wavelength
  rw [hsq]
  push_cast
  norm_num

/-- C2: on the noise-free synthetic measurements of rings 5 and 10 at
wavelength 589.3 nm and radius of curvature 100 cm, the regression of
calculate_radius_from_measurements returns 40000 cm — a factor 400 away
from the original 100 cm (a factor 4 because the slope of diameter
squared is 4 wavelength R, not wavelength R, and a factor 100 from the
mm-to-cm unit conversion) — and in particular not within 0.1 percent of
100 cm. -/
theorem calculate_radius_synthetic :
    (calculate_radius_from_measurements syntheticSim).2 = some 40000 ∧
    ¬(|(40000 : ℝ) - 100| ≤ (1/1000) * 100) := by
  have h5nn := ringRadius_nonneg 589.3 (100 * 10 ^ 7) 1 5
  have h10nn := ringRadius_nonneg 589.3 (100 * 10 ^ 7) 1 10
  have hsq5 : ringRadius 589.3 (100 * 10 ^ 7) 1 5 ^ 2 =
      (((5:ℕ):ℝ) * 589.3 * (100 * 10 ^ 7) / 1) / 10 ^ 12 :=
    ringRadius_sq (by norm_num) (by positivity)
  have hsq10 : ringRadius 589.3 (100 * 10 ^ 7) 1 10 ^ 2 =
      (((10:ℕ):ℝ) * 589.3 * (100 * 10 ^ 7) / 1) / 10 ^ 12 :=
    ringRadius_sq (by norm_num) (by positivity)
  have hl5 : lookupMeas syntheticSim.left_measurements 5 =
      some (-(ringRadius 589.3 (100 * 10 ^ 7) 1 5)) := by
    simp [syntheticSim, lookupMeas, List.find?]
  have hl10 : lookupMeas syntheticSim.left_measurements 10 =
      some (-(ringRadius 589.3 (100 * 10 ^ 7) 1 10)) := by
    simp [syntheticSim, lookupMeas, List.find?]
  have hr5 : lookupMeas syntheticSim.right_measurements 5 =
      some (ringRadius 589.3 (100 * 10 ^ 7) 1 5) := by
    simp [syntheticSim, lookupMeas, List.find?]
  have hr10 : lookupMeas syntheticSim.right_measurements 10 =
      some (ringRadius 589.3 (100 * 10 ^ 7) 1 10) := by
    simp [syntheticSim, lookupMeas, List.find?]
  have hvalid : validRings syntheticSim.left_measurements
      syntheticSim.right_measurements = [5, 10] := by
    simp [validRings, sortKeys, insertSorted, syntheticSim, lookupMeas, List.find?]
  have hds5 : diameterSq syntheticSim.left_measurements
      syntheticSim.right_measurements 5 = 11786/1000 := by
    unfold diameterSq
    rw [hl5, hr5]
    simp only [Option.getD_some, sub_neg_eq_add]
    rw [abs_of_nonneg (by linarith)]
    have hexp : (ringRadius 589.3 (100 * 10 ^ 7) 1 5 +
        ringRadius 589.3 (100 * 10 ^ 7) 1 5) ^ 2 =
        4 * ringRadius 589.3 (100 * 10 ^ 7) 1 5 ^ 2 := by ring
    rw [hexp, hsq5]
    push_cast
    norm_num
  have hds10 : diameterSq syntheticSim.left_measurements
      syntheticSim.right_measurements 10 = 23572/1000 := by
    unfold diameterSq
    rw [hl10, hr10]
    simp only [Option.getD_some, sub_neg_eq_add]
    rw [abs_of_nonneg (by linarith)]
    have hexp : (ringRadius 589.3 (100 * 10 ^ 7) 1 10 +
        ringRadius 589.3 (100 * 10 ^ 7) 1 10) ^ 2 =
        4 * ringRadius 589.3 (100 * 10 ^ 7) 1 10 ^ 2 := by ring
    rw [hexp, hsq10]
    push_cast
    norm_num
  have hwl : syntheticSim.wavelength = 589.3 := rfl
  refine ⟨?_, by norm_num⟩
  simp only [calculate_radius_from_measurements, hvalid]
  rw [if_neg (by norm_num)]
  simp only [List.map_cons, List.map_nil, List.zip_cons_cons, List.zip_nil_right,
    List.sum_cons, List.sum_nil, List.length_cons, List.length_nil, hds5, hds10, hwl]
  push_cast
  norm_num
